import Mathlib

/-!
Verification of the candidate matching-and-clustering engine of the
`rusty_candypicker` repository.

The repository compares pulsar-search candidates using `f64` arithmetic.  We
embed `f64` values as the type `F`: an exact rational (`F.fin`), positive or
negative infinity (`F.pinf` / `F.ninf`), or `F.nan`.  Rounding of finite
results is not modelled (finite arithmetic is exact), and the two IEEE zeros
are collapsed into `F.fin 0`; the IEEE special-value rules (propagation of
infinities and NaN, every comparison with NaN being false, truncating
remainder semantics of Rust's `%` on floats) are modelled faithfully, since
several spec claims turn on them.

Rational arithmetic is implemented by kernel-computable wrappers
(`qadd`, `qsub`, ...) built on `Rat.divInt`, because Mathlib's own `ℚ`
field operations are `@[irreducible]` and cannot be evaluated by `decide`.
Bridge lemmas (`qadd_eq`, ...) identify the wrappers with the Mathlib
operations for use in abstract proofs.
-/

/-! ## Kernel-computable rational arithmetic -/

/-- Numerator-denominator addition of rationals, reducible in the kernel. -/
def qadd (a b : ℚ) : ℚ := Rat.divInt (a.num * b.den + b.num * a.den) (a.den * b.den)

/-- Numerator-denominator subtraction of rationals, reducible in the kernel. -/
def qsub (a b : ℚ) : ℚ := Rat.divInt (a.num * b.den - b.num * a.den) (a.den * b.den)

/-- Numerator-denominator multiplication of rationals, reducible in the kernel. -/
def qmul (a b : ℚ) : ℚ := Rat.divInt (a.num * b.num) (a.den * b.den)

/-- Numerator-denominator division of rationals, reducible in the kernel.
Division by zero yields zero (the zero case is always routed around by `F.div`). -/
def qdiv (a b : ℚ) : ℚ := Rat.divInt (a.num * b.den) (a.den * b.num)

/-- Negation of a rational, reducible in the kernel. -/
def qneg (a : ℚ) : ℚ := Rat.divInt (-a.num) a.den

/-- Absolute value of a rational, reducible in the kernel. -/
def qabs (a : ℚ) : ℚ := if a.num < 0 then qneg a else a

/-- Floor of a rational as an integer, reducible in the kernel. -/
def qfloor (a : ℚ) : ℤ := Int.fdiv a.num a.den

/-- Truncation (rounding toward zero) of a rational, reducible in the kernel;
this is the rounding used by the IEEE / Rust `%` remainder on floats. -/
def qtrunc (a : ℚ) : ℤ := Int.tdiv a.num a.den

theorem den_cast_ne_zero (a : ℚ) : ((a.den : ℚ)) ≠ 0 := by
  exact_mod_cast a.den_nz

theorem qadd_eq (a b : ℚ) : qadd a b = a + b := by
  rw [qadd, Rat.divInt_eq_div]
  conv_rhs => rw [← Rat.num_div_den a, ← Rat.num_div_den b]
  push_cast
  field_simp

theorem qsub_eq (a b : ℚ) : qsub a b = a - b := by
  rw [qsub, Rat.divInt_eq_div]
  conv_rhs => rw [← Rat.num_div_den a, ← Rat.num_div_den b]
  push_cast
  field_simp
  ring

theorem qmul_eq (a b : ℚ) : qmul a b = a * b := by
  rw [qmul, Rat.divInt_eq_div]
  conv_rhs => rw [← Rat.num_div_den a, ← Rat.num_div_den b]
  push_cast
  rw [div_mul_div_comm]

theorem qneg_eq (a : ℚ) : qneg a = -a := by
  rw [qneg, Rat.divInt_eq_div]
  conv_rhs => rw [← Rat.num_div_den a]
  push_cast
  rw [neg_div]

theorem qdiv_eq (a b : ℚ) : qdiv a b = a / b := by
  rw [qdiv, Rat.divInt_eq_div]
  rcases eq_or_ne b 0 with rfl | hb
  · simp
  · have hbn : (b.num : ℚ) ≠ 0 := by exact_mod_cast Rat.num_ne_zero.mpr hb
    have hda := den_cast_ne_zero a
    have hdb := den_cast_ne_zero b
    conv_rhs => rw [← Rat.num_div_den a, ← Rat.num_div_den b]
    push_cast
    field_simp

theorem qabs_eq (a : ℚ) : qabs a = |a| := by
  rw [qabs]
  split <;> rename_i h
  · rw [qneg_eq, abs_of_neg]
    exact lt_of_not_ge fun hge => absurd (Rat.num_nonneg.mpr hge) (not_le.mpr h)
  · rw [abs_of_nonneg]
    exact Rat.num_nonneg.mp (le_of_not_lt h)

theorem qfloor_eq (a : ℚ) : qfloor a = ⌊a⌋ := by
  rw [qfloor, Rat.floor_def, Int.fdiv_eq_ediv]
  exact_mod_cast Nat.zero_le a.den

/-! ## The float model `F` -/

/-- Model of an `f64` value: an exact rational, an infinity, or NaN. -/
inductive F where
  | fin : ℚ → F
  | pinf : F
  | ninf : F
  | nan : F
deriving DecidableEq

namespace F

/-- Rust `f64::is_finite`. -/
def isFinite : F → Bool
  | fin _ => true
  | _ => false

/-- IEEE subtraction on the model. -/
def sub : F → F → F
  | nan, _ => nan
  | _, nan => nan
  | fin a, fin b => fin (qsub a b)
  | fin _, pinf => ninf
  | fin _, ninf => pinf
  | pinf, fin _ => pinf
  | pinf, pinf => nan
  | pinf, ninf => pinf
  | ninf, fin _ => ninf
  | ninf, pinf => ninf
  | ninf, ninf => nan

/-- IEEE multiplication on the model. -/
def mul : F → F → F
  | nan, _ => nan
  | _, nan => nan
  | fin a, fin b => fin (qmul a b)
  | fin a, pinf => if a = 0 then nan else if 0 < a then pinf else ninf
  | fin a, ninf => if a = 0 then nan else if 0 < a then ninf else pinf
  | pinf, fin b => if b = 0 then nan else if 0 < b then pinf else ninf
  | ninf, fin b => if b = 0 then nan else if 0 < b then ninf else pinf
  | pinf, pinf => pinf
  | pinf, ninf => ninf
  | ninf, pinf => ninf
  | ninf, ninf => pinf

/-- IEEE division on the model (only one zero is modelled, so division of a
nonzero finite value by zero picks the sign of the numerator, matching IEEE
division by positive zero). -/
def div : F → F → F
  | nan, _ => nan
  | _, nan => nan
  | fin a, fin b =>
      if b = 0 then (if a = 0 then nan else if 0 < a then pinf else ninf)
      else fin (qdiv a b)
  | fin _, pinf => fin 0
  | fin _, ninf => fin 0
  | pinf, fin b => if 0 ≤ b then pinf else ninf
  | ninf, fin b => if 0 ≤ b then ninf else pinf
  | pinf, pinf => nan
  | pinf, ninf => nan
  | ninf, pinf => nan
  | ninf, ninf => nan

/-- Rust's `%` on `f64` (IEEE `fmod`): remainder with the sign of the
dividend, `a - b * trunc(a / b)` on finite arguments. -/
def rem : F → F → F
  | nan, _ => nan
  | _, nan => nan
  | pinf, _ => nan
  | ninf, _ => nan
  | fin a, pinf => fin a
  | fin a, ninf => fin a
  | fin a, fin b => if b = 0 then nan else fin (qsub a (qmul b ((qtrunc (qdiv a b) : ℤ) : ℚ)))

/-- IEEE absolute value on the model. -/
def abs : F → F
  | fin a => fin (qabs a)
  | pinf => pinf
  | ninf => pinf
  | nan => nan

/-- IEEE `<=` comparison (false whenever NaN is involved). -/
def le : F → F → Bool
  | nan, _ => false
  | _, nan => false
  | ninf, _ => true
  | _, ninf => false
  | _, pinf => true
  | pinf, _ => false
  | fin a, fin b => decide (a ≤ b)

/-- IEEE `<` comparison (false whenever NaN is involved). -/
def lt : F → F → Bool
  | nan, _ => false
  | _, nan => false
  | _, ninf => false
  | ninf, _ => true
  | pinf, _ => false
  | _, pinf => true
  | fin a, fin b => decide (a < b)

/-- IEEE `>` comparison. -/
def gt (x y : F) : Bool := lt y x

end F

/-! ## Embedding of `src/csv_cluster.rs` -/

/-- The physical constant from both engine files. -/
def SPEED_OF_LIGHT : ℚ := 299792458

/-- One parsed CSV row (`RowView` in `csv_cluster.rs`), restricted to the
fields the clustering engine reads.  The `row` / `source` provenance strings
are never consulted by `periods_match` or `cluster_rows` and are omitted. -/
structure RowView where
  period_s : F
  dm : F
  acc : F
  snr : F
deriving DecidableEq

/-- The optional DM gate at the top of `periods_match`
(`(a.dm - b.dm).abs() > d`). -/
def dm_gate_rejects (a b : RowView) (dmtol : Option ℚ) : Bool :=
  match dmtol with
  | some d => F.gt (F.abs (F.sub a.dm b.dm)) (F.fin d)
  | none => false

/-- The optional ACC gate of `periods_match`
(`(a.acc - b.acc).abs() > t`). -/
def acc_gate_rejects (a b : RowView) (acctol : Option ℚ) : Bool :=
  match acctol with
  | some t => F.gt (F.abs (F.sub a.acc b.acc)) (F.fin t)
  | none => false

/-- The acceleration-corrected period of `b` in `a`'s frame, exactly as
computed inside `periods_match` (csv_cluster.rs lines 146-148):
`tobs_over_c = tobs_opt.unwrap_or(600.0) / SPEED_OF_LIGHT`,
`f0_b = 1.0 / b.period_s`,
`p_b_corr = 1.0 / (f0_b - (b.acc - a.acc) * f0_b * tobs_over_c)`. -/
def csv_p_b_corr (a b : RowView) (tobs_opt : Option ℚ) : F :=
  let tobs_over_c : ℚ := qdiv (tobs_opt.getD 600) SPEED_OF_LIGHT
  let f0_b : F := F.div (F.fin 1) b.period_s
  F.div (F.fin 1)
    (F.sub f0_b (F.mul (F.mul (F.sub b.acc a.acc) f0_b) (F.fin tobs_over_c)))

/-- The fixed harmonic bound `const HMAX: usize = 16` of `periods_match`. -/
def HMAX : ℕ := 16

/-- `periods_match` from csv_cluster.rs: optional DM/ACC gates, acceleration
correction of `b` into `a`'s frame, then either the direct `|ΔP| ≤ ptol`
test or the harmonic sweep `k = 1..=16` testing
`|p_a - k·p_b_corr| ≤ ptol` or `|k·p_a - p_b_corr| ≤ ptol`.
The Rust loop returns at the first hit; `List.any` computes the same value. -/
def periods_match (a b : RowView) (ptol_abs : ℚ) (dmtol acctol : Option ℚ)
    (allow_harmonics : Bool) (tobs_opt : Option ℚ) : Bool :=
  if dm_gate_rejects a b dmtol then false
  else if acc_gate_rejects a b acctol then false
  else
    if !allow_harmonics then
      F.le (F.abs (F.sub a.period_s (csv_p_b_corr a b tobs_opt))) (F.fin ptol_abs)
    else
      (List.range HMAX).any fun k =>
        F.le (F.abs (F.sub a.period_s
          (F.mul (F.fin ((k + 1 : ℕ) : ℚ)) (csv_p_b_corr a b tobs_opt)))) (F.fin ptol_abs) ||
        F.le (F.abs (F.sub (F.mul (F.fin ((k + 1 : ℕ) : ℚ)) a.period_s)
          (csv_p_b_corr a b tobs_opt))) (F.fin ptol_abs)

/-- The SNR comparison used by the comparator passed to `rows.sort_by` in
`cluster_rows`: `snr_order x y` holds when the comparator does not answer
`Greater` on rows with these SNR values, i.e. the first may stay before the
second.  Non-finite SNR sorts last, finite SNR sorts descending. -/
def snr_order (x y : F) : Bool :=
  match x, y with
  | F.fin a, F.fin b => decide (b ≤ a)
  | F.fin _, _ => true
  | _, F.fin _ => false
  | _, _ => true

/-- The `sort_by` comparator of `cluster_rows`, as a keep-before predicate. -/
def sorts_before (a b : RowView) : Bool :=
  snr_order a.snr b.snr

/-- `sorts_before` as a relation, for use with `List.insertionSort`. -/
def row_le (a b : RowView) : Prop := sorts_before a b = true

instance : DecidableRel row_le := fun a b => inferInstanceAs (Decidable (_ = true))

/-- Greedy suppression pass of `cluster_rows` over the SNR-sorted row list.
Returns the picked pivots (first component) and, for each suppressed row,
the pair `(row, pivot that claimed it)` (second component).

This is the functional rendering of the Rust `removed` flag array: when the
first unremoved row `r` is picked as a pivot, exactly the not-yet-removed
rows matching `r` are flagged removed (= claimed by `r`), and the recursion
continues on the rows that remain unremoved, which both the outer pivot loop
and the later inner loops skip. -/
def cluster_pass (ptol_abs : ℚ) (dmtol acctol : Option ℚ)
    (allow_harmonics : Bool) (tobs_opt : Option ℚ) :
    List RowView → List RowView × List (RowView × RowView)
  | [] => ([], [])
  | r :: rest =>
    let claimed := rest.filter fun q => periods_match r q ptol_abs dmtol acctol allow_harmonics tobs_opt
    let remaining := rest.filter fun q => !periods_match r q ptol_abs dmtol acctol allow_harmonics tobs_opt
    let res := cluster_pass ptol_abs dmtol acctol allow_harmonics tobs_opt remaining
    (r :: res.1, claimed.map (fun q => (q, r)) ++ res.2)
termination_by l => l.length
decreasing_by
  simp only [List.length_cons]
  exact Nat.lt_succ_of_le (List.length_filter_le _ _)

/-- `cluster_rows` from csv_cluster.rs: stable sort by SNR descending with
non-finite SNR last, then the greedy suppression pass.  The first component
is the picked list the Rust function returns; the second records which pivot
claimed each suppressed row. -/
def cluster_rows (rows : List RowView) (ptol_abs : ℚ) (dmtol acctol : Option ℚ)
    (allow_harmonics : Bool) (tobs_opt : Option ℚ) :
    List RowView × List (RowView × RowView) :=
  cluster_pass ptol_abs dmtol acctol allow_harmonics tobs_opt
    (List.insertionSort row_le rows)

/-! ## Embedding of `src/main.rs` (XML pipeline) -/

/-- One XML candidate (`Candidate` in main.rs), restricted to the fields read
by `is_related` / `cluster_candidates` / `shortlist_candidates`.  The
display and provenance fields (`nh`, `ddm_count_ratio`, `ddm_snr_ratio`,
`nassoc`, `period_ms`, `pulse_width`, `uuid`, `xml_file`, `candidate_id`,
`raw_xml`) are never consulted by the matching logic and are omitted; the
`related` / `is_pivot` fields are represented by the outputs of
`related_lists` and `shortlist_candidates`. -/
structure Candidate where
  snr : F
  period : F
  f0 : F
  dm : F
  acc : F
deriving DecidableEq

/-- `Candidate::new`: stores `f0 = 1.0 / period` at construction. -/
def Candidate.new (snr period dm acc : F) : Candidate :=
  { snr := snr, period := period, f0 := F.div (F.fin 1) period, dm := dm, acc := acc }

/-- The corrected period of `other` relative to `self` computed inside
`is_related` (main.rs lines 77-78):
`1.0 / (other.f0 - (other.acc - self.acc) * other.f0 * tobs_over_c)`. -/
def corrected_other_period (self other : Candidate) (tobs_over_c : ℚ) : F :=
  F.div (F.fin 1)
    (F.sub other.f0 (F.mul (F.mul (F.sub other.acc self.acc) other.f0) (F.fin tobs_over_c)))

/-- The optional DM gate at the top of `is_related`. -/
def is_related_dm_rejects (self other : Candidate) (dm_thresh : Option ℚ) : Bool :=
  match dm_thresh with
  | some dmth => F.gt (F.abs (F.sub self.dm other.dm)) (F.fin dmth)
  | none => false

/-- `Candidate::is_related` from main.rs: optional DM gate, acceleration
correction of `other`, then the modulo test (larger period mod smaller
period, chosen by whether `self.period / corrected > 1`) or the direct
`|ΔP|` test, each against `period_thresh`. -/
def is_related (self other : Candidate) (period_thresh : ℚ) (dm_thresh : Option ℚ)
    (tobs_over_c : ℚ) : Bool :=
  if is_related_dm_rejects self other dm_thresh then false
  else
    F.le
      (if F.gt (F.div self.period (corrected_other_period self other tobs_over_c)) (F.fin 1)
        then F.rem self.period (corrected_other_period self other tobs_over_c)
        else F.rem (corrected_other_period self other tobs_over_c) self.period)
      (F.fin period_thresh) ||
      F.le (F.abs (F.sub self.period (corrected_other_period self other tobs_over_c)))
        (F.fin period_thresh)

/-- `cluster_candidates` (main.rs, `bin_dm = false` branch): for each index
`i`, `related[i]` is the list of indices `j > i` with
`is_related(cands[i], cands[j])`.  The rayon parallel map collects results
in index order, so the sequential rendering is exact.  (The `bin_dm = true`
branch applies the same rule within DM bins only.) -/
def related_lists (cands : List Candidate) (period_thresh : ℚ) (dm_thresh : Option ℚ)
    (tobs_over_c : ℚ) : List (List ℕ) :=
  (List.range cands.length).map fun i =>
    (List.range cands.length).filter fun j =>
      decide (i < j) &&
        match cands[i]?, cands[j]? with
        | some ci, some cj => is_related ci cj period_thresh dm_thresh tobs_over_c
        | _, _ => false

/-- `shortlist_candidates` from main.rs: collect into `to_remove` every
index appearing in a `related` list of length `> 1`, then return (and mark
`is_pivot`) every index not in `to_remove`. -/
def shortlist_candidates (related : List (List ℕ)) : List ℕ :=
  let to_remove := (related.filter fun l => decide (1 < l.length)).flatten
  (List.range related.length).filter fun i => !(to_remove.contains i)

/-- The effective observation baseline of the XML pipeline (main.rs line
412-413): `fft_size * tsamp` of the first file, divided by the speed of
light. -/
def effective_tobs_over_c (fft_size : ℤ) (tsamp : ℚ) : ℚ :=
  qdiv (qmul ((fft_size : ℤ) : ℚ) tsamp) SPEED_OF_LIGHT

/-! ## Embedding of `src/bin/csv_matcher.rs` -/

/-- `periods_match_abs` from csv_matcher.rs: `|p1 - p2| ≤ ptol`, or, with
harmonics enabled, some `k ∈ 2..=hmax` with `|p1 - k·p2| ≤ ptol` or
`|p2 - k·p1| ≤ ptol`. -/
def periods_match_abs (p1 p2 : F) (ptol : ℚ) (harmonics : Bool) (hmax : ℕ) : Bool :=
  if F.le (F.abs (F.sub p1 p2)) (F.fin ptol) then true
  else if harmonics then
    (List.range (hmax - 1)).any fun i =>
      let kf : ℚ := ((i + 2 : ℕ) : ℚ)
      F.le (F.abs (F.sub p1 (F.mul (F.fin kf) p2))) (F.fin ptol) ||
      F.le (F.abs (F.sub p2 (F.mul (F.fin kf) p1))) (F.fin ptol)
  else false

/-- `dim_match_abs` from csv_matcher.rs: with no tolerance the dimension is
ignored; with a tolerance both sides must be present and within it. -/
def dim_match_abs (a b : Option F) (tol : Option ℚ) : Bool :=
  match tol with
  | none => true
  | some t =>
    match a, b with
    | some x, some y => F.le (F.abs (F.sub x y)) (F.fin t)
    | _, _ => false

/-- `bucket_abs` from csv_matcher.rs: `(p / ptol).floor()`. -/
def bucket_abs (p ptol : ℚ) : ℤ := qfloor (qdiv p ptol)

/-- The `neighbors_for` closure of csv_matcher.rs: the candidate's own
bucket ±1, plus, with harmonics, ±1 around the buckets of the bucket-center
period scaled by `k` and divided by `k` for `k ∈ 2..=hmax`.  The final
`sort_unstable` / `dedup` of the Rust code only reorders and deduplicates
and is omitted (membership is unchanged). -/
def neighbors_for (b0 : ℤ) (hmax : ℕ) (harmonics : Bool) (ptol : ℚ) : List ℤ :=
  let base := [b0 - 1, b0, b0 + 1]
  if harmonics then
    base ++ ((List.range (hmax - 1)).map fun i =>
      let kf : ℚ := ((i + 2 : ℕ) : ℚ)
      let center : ℚ := qmul (qadd ((b0 : ℤ) : ℚ) (mkRat 1 2)) ptol
      let hk_b := bucket_abs (qmul center kf) ptol
      let hk_div_b := bucket_abs (qdiv center kf) ptol
      [hk_b - 1, hk_b, hk_b + 1, hk_div_b - 1, hk_div_b, hk_div_b + 1]).flatten
  else base

/-- The per-pair acceptance test of the csv_matcher main loop (lines
331-336): period proximity, then the DM gate, then the ACC gate. -/
def pair_matches (p1 p2 : F) (dm1 dm2 acc1 acc2 : Option F) (ptol : ℚ)
    (dmtol acctol : Option ℚ) (harmonics : Bool) (hmax : ℕ) : Bool :=
  periods_match_abs p1 p2 ptol harmonics hmax &&
    dim_match_abs dm1 dm2 dmtol && dim_match_abs acc1 acc2 acctol

/-! ## Spec-side definition for the refinement claim about the correction formula -/

/-- Written from the spec's words (section 4.1 step 3), for comparison with
the code: `f0_corr = (1/b.period_s) - (b.acceleration - a.acceleration) *
(1/b.period_s) * (observation_duration_s / speed_of_light)`, then
`p_b_corr = 1 / f0_corr`. -/
def spec_corrected_period (period_b acc_b acc_a : F) (observation_duration_s : ℚ) : F :=
  let f0_b := F.div (F.fin 1) period_b
  let f0_corr :=
    F.sub f0_b (F.mul (F.mul (F.sub acc_b acc_a) f0_b)
      (F.fin (qdiv observation_duration_s SPEED_OF_LIGHT)))
  F.div (F.fin 1) f0_corr

/-! ## Basic lemmas about the float model -/

theorem F.sub_fin (a b : ℚ) : F.sub (F.fin a) (F.fin b) = F.fin (a - b) := by
  simp [F.sub, qsub_eq]

theorem F.mul_fin (a b : ℚ) : F.mul (F.fin a) (F.fin b) = F.fin (a * b) := by
  simp [F.mul, qmul_eq]

theorem F.div_fin {b : ℚ} (a : ℚ) (hb : b ≠ 0) : F.div (F.fin a) (F.fin b) = F.fin (a / b) := by
  simp [F.div, hb, qdiv_eq]

theorem F.abs_fin (a : ℚ) : F.abs (F.fin a) = F.fin |a| := by
  simp [F.abs, qabs_eq]

theorem F.le_fin (a b : ℚ) : F.le (F.fin a) (F.fin b) = decide (a ≤ b) := rfl

theorem F.abs_sub_swap (x y : F) : F.abs (F.sub x y) = F.abs (F.sub y x) := by
  cases x <;> cases y <;> simp [F.sub, F.abs, qsub_eq, qabs_eq]
  exact abs_sub_comm _ _

theorem F.sub_nonfinite {y : F} (x : F) (h : y.isFinite = false) :
    (F.sub x y).isFinite = false := by
  cases x <;> cases y <;> simp_all [F.sub, F.isFinite]

theorem F.mul_fin_nonfinite {y : F} (k : ℚ) (h : y.isFinite = false) :
    (F.mul (F.fin k) y).isFinite = false := by
  cases y with
  | fin b => simp [F.isFinite] at h
  | pinf =>
    show (if k = 0 then F.nan else if 0 < k then F.pinf else F.ninf).isFinite = false
    split
    · rfl
    · split <;> rfl
  | ninf =>
    show (if k = 0 then F.nan else if 0 < k then F.ninf else F.pinf).isFinite = false
    split
    · rfl
    · split <;> rfl
  | nan => rfl

theorem F.abs_le_fin_of_nonfinite {x : F} (t : ℚ) (h : x.isFinite = false) :
    F.le (F.abs x) (F.fin t) = false := by
  cases x <;> simp_all [F.abs, F.le, F.isFinite]

theorem F.rem_nonfinite_left {x : F} (y : F) (h : x.isFinite = false) :
    F.rem x y = F.nan := by
  cases x <;> cases y <;> simp_all [F.rem, F.isFinite]

theorem F.gt_div_one_of_nonfinite {y : F} (x : F) (h : y.isFinite = false) :
    F.gt (F.div x y) (F.fin 1) = false := by
  cases y <;> cases x <;>
    first
      | decide
      | rfl
      | simp [F.isFinite] at h

theorem F.le_fin_eq_true_iff {a b : ℚ} : F.le (F.fin a) (F.fin b) = true ↔ a ≤ b := by
  simp [F.le]

theorem F.sub_self_nonfinite {x : F} (h : x.isFinite = false) :
    (F.sub x x).isFinite = false := by
  cases x <;> simp_all [F.sub, F.isFinite]

/-! ## The sort comparator is a total preorder -/

theorem snr_order_total (x y : F) : snr_order x y = true ∨ snr_order y x = true := by
  cases x <;> cases y <;> simp [snr_order]
  exact le_total _ _

theorem snr_order_trans {x y z : F} (h1 : snr_order x y = true) (h2 : snr_order y z = true) :
    snr_order x z = true := by
  cases x <;> cases y <;> cases z <;> simp_all [snr_order]
  linarith

instance : IsTotal RowView row_le :=
  ⟨fun a b => snr_order_total a.snr b.snr⟩

instance : IsTrans RowView row_le :=
  ⟨fun _ _ _ h1 h2 => snr_order_trans h1 h2⟩

theorem row_le_snr {p q : RowView} (h : row_le p q) (hq : q.snr.isFinite = true) :
    p.snr.isFinite = true ∧ F.le q.snr p.snr = true := by
  unfold row_le sorts_before at h
  rcases hx : p.snr with a | _ | _ | _ <;> rcases hy : q.snr with b | _ | _ | _ <;>
    rw [hx, hy] at h <;> simp_all [snr_order, F.isFinite, F.le]

/-! ## Structural lemmas about the greedy suppression pass -/

theorem cluster_pass_nil (ptol : ℚ) (dmtol acctol : Option ℚ) (hb : Bool) (tobs : Option ℚ) :
    cluster_pass ptol dmtol acctol hb tobs [] = ([], []) := by
  rw [cluster_pass]

theorem cluster_pass_cons (ptol : ℚ) (dmtol acctol : Option ℚ) (hb : Bool) (tobs : Option ℚ)
    (r : RowView) (rest : List RowView) :
    cluster_pass ptol dmtol acctol hb tobs (r :: rest) =
      (r :: (cluster_pass ptol dmtol acctol hb tobs
          (rest.filter fun q => !periods_match r q ptol dmtol acctol hb tobs)).1,
        (rest.filter fun q => periods_match r q ptol dmtol acctol hb tobs).map (fun q => (q, r)) ++
          (cluster_pass ptol dmtol acctol hb tobs
            (rest.filter fun q => !periods_match r q ptol dmtol acctol hb tobs)).2) := by
  rw [cluster_pass]

theorem cluster_pass_perm (ptol : ℚ) (dmtol acctol : Option ℚ) (hb : Bool) (tobs : Option ℚ)
    (l : List RowView) :
    List.Perm ((cluster_pass ptol dmtol acctol hb tobs l).1 ++
      ((cluster_pass ptol dmtol acctol hb tobs l).2.map Prod.fst)) l := by
  suffices H : ∀ (n : ℕ) (l : List RowView), l.length = n →
      List.Perm ((cluster_pass ptol dmtol acctol hb tobs l).1 ++
        ((cluster_pass ptol dmtol acctol hb tobs l).2.map Prod.fst)) l from H _ l rfl
  intro n
  induction n using Nat.strong_induction_on with
  | _ n ih =>
    intro l hn
    cases l with
    | nil => simp [cluster_pass_nil]
    | cons r rest =>
      subst hn
      rw [cluster_pass_cons]
      have hlen : (rest.filter fun q =>
          !periods_match r q ptol dmtol acctol hb tobs).length < (r :: rest).length :=
        Nat.lt_succ_of_le (List.length_filter_le _ _)
      have hIH := ih _ hlen
        (rest.filter fun q => !periods_match r q ptol dmtol acctol hb tobs) rfl
      simp only [List.cons_append, List.map_append, List.map_map]
      have hmapfst : ((rest.filter fun q =>
            periods_match r q ptol dmtol acctol hb tobs).map
              (Prod.fst ∘ fun q => (q, r))) =
          rest.filter fun q => periods_match r q ptol dmtol acctol hb tobs := by
        rw [show (Prod.fst ∘ fun q : RowView => (q, r)) = id from rfl, List.map_id]
      rw [hmapfst]
      refine List.Perm.cons r ?_
      refine List.Perm.trans ?_
        (List.filter_append_perm (fun q => periods_match r q ptol dmtol acctol hb tobs) rest)
      refine List.Perm.trans (List.Perm.append_left _ (List.perm_append_comm)) ?_
      rw [← List.append_assoc]
      exact List.Perm.trans (hIH.append_right _) List.perm_append_comm

theorem cluster_pass_claims (ptol : ℚ) (dmtol acctol : Option ℚ) (hb : Bool) (tobs : Option ℚ)
    (l : List RowView) (q p : RowView)
    (h : (q, p) ∈ (cluster_pass ptol dmtol acctol hb tobs l).2) :
    p ∈ (cluster_pass ptol dmtol acctol hb tobs l).1 ∧
      periods_match p q ptol dmtol acctol hb tobs = true := by
  suffices H : ∀ (n : ℕ) (l : List RowView), l.length = n → ∀ q p,
      (q, p) ∈ (cluster_pass ptol dmtol acctol hb tobs l).2 →
      p ∈ (cluster_pass ptol dmtol acctol hb tobs l).1 ∧
        periods_match p q ptol dmtol acctol hb tobs = true from H _ l rfl q p h
  clear h q p l
  intro n
  induction n using Nat.strong_induction_on with
  | _ n ih =>
    intro l hn q p h
    cases l with
    | nil => rw [cluster_pass_nil] at h; simp at h
    | cons r rest =>
      subst hn
      rw [cluster_pass_cons] at h ⊢
      rcases List.mem_append.mp h with hc | hs
      · obtain ⟨q', hq', heq⟩ := List.mem_map.mp hc
        cases heq
        exact ⟨List.mem_cons_self _ _, (List.mem_filter.mp hq').2⟩
      · have hlen : (rest.filter fun q =>
            !periods_match r q ptol dmtol acctol hb tobs).length < (r :: rest).length :=
          Nat.lt_succ_of_le (List.length_filter_le _ _)
        obtain ⟨hp, hm⟩ := ih _ hlen _ rfl q p hs
        exact ⟨List.mem_cons_of_mem r hp, hm⟩

theorem cluster_pass_order (ptol : ℚ) (dmtol acctol : Option ℚ) (hb : Bool) (tobs : Option ℚ)
    (l : List RowView) (hpw : List.Pairwise row_le l) (q p : RowView)
    (h : (q, p) ∈ (cluster_pass ptol dmtol acctol hb tobs l).2) :
    row_le p q := by
  suffices H : ∀ (n : ℕ) (l : List RowView), l.length = n → List.Pairwise row_le l → ∀ q p,
      (q, p) ∈ (cluster_pass ptol dmtol acctol hb tobs l).2 →
      row_le p q from H _ l rfl hpw q p h
  clear h hpw q p l
  intro n
  induction n using Nat.strong_induction_on with
  | _ n ih =>
    intro l hn hpw q p h
    cases l with
    | nil => rw [cluster_pass_nil] at h; simp at h
    | cons r rest =>
      subst hn
      rw [cluster_pass_cons] at h
      obtain ⟨hr, hrest⟩ := List.pairwise_cons.mp hpw
      rcases List.mem_append.mp h with hc | hs
      · obtain ⟨q', hq', heq⟩ := List.mem_map.mp hc
        cases heq
        exact hr _ (List.mem_of_mem_filter hq')
      · have hlen : (rest.filter fun q =>
            !periods_match r q ptol dmtol acctol hb tobs).length < (r :: rest).length :=
          Nat.lt_succ_of_le (List.length_filter_le _ _)
        exact ih _ hlen _ rfl (List.Pairwise.sublist (List.filter_sublist rest) hrest) q p hs

/-! ## Gate and corrected-period lemmas -/

theorem F.mul_nan_left (z : F) : F.mul F.nan z = F.nan := by cases z <;> rfl

theorem F.sub_nan_right (x : F) : F.sub x F.nan = F.nan := by cases x <;> rfl

theorem F.div_nan_right (x : F) : F.div x F.nan = F.nan := by cases x <;> rfl

theorem F.gt_abs_sub_nan {x y : F} (h : x = F.nan ∨ y = F.nan) (d : ℚ) :
    F.gt (F.abs (F.sub x y)) (F.fin d) = false := by
  rcases h with rfl | rfl
  · cases y <;> rfl
  · cases x <;> rfl

theorem dm_gate_swap (a b : RowView) (dmtol : Option ℚ) :
    dm_gate_rejects a b dmtol = dm_gate_rejects b a dmtol := by
  cases dmtol with
  | none => rfl
  | some d => simp only [dm_gate_rejects]; rw [F.abs_sub_swap]

theorem acc_gate_swap (a b : RowView) (acctol : Option ℚ) :
    acc_gate_rejects a b acctol = acc_gate_rejects b a acctol := by
  cases acctol with
  | none => rfl
  | some t => simp only [acc_gate_rejects]; rw [F.abs_sub_swap]

theorem dm_gate_nan {a b : RowView} (h : a.dm = F.nan ∨ b.dm = F.nan) (dmtol : Option ℚ) :
    dm_gate_rejects a b dmtol = false := by
  cases dmtol with
  | none => rfl
  | some d => exact F.gt_abs_sub_nan h d

theorem is_related_dm_nan {self other : Candidate}
    (h : self.dm = F.nan ∨ other.dm = F.nan) (dm_thresh : Option ℚ) :
    is_related_dm_rejects self other dm_thresh = false := by
  cases dm_thresh with
  | none => rfl
  | some d => exact F.gt_abs_sub_nan h d

theorem csv_p_b_corr_eq_period {a b : RowView} {p α : ℚ} (hp : b.period_s = F.fin p)
    (hp0 : p ≠ 0) (hacc : b.acc = a.acc) (hfin : a.acc = F.fin α) (tobs : Option ℚ) :
    csv_p_b_corr a b tobs = F.fin p := by
  have h1p : (1 : ℚ) / p ≠ 0 := one_div_ne_zero hp0
  simp only [csv_p_b_corr, hp, hacc, hfin]
  rw [F.div_fin 1 hp0, F.sub_fin, sub_self, F.mul_fin, F.mul_fin, zero_mul, zero_mul,
    F.sub_fin, sub_zero, F.div_fin 1 h1p, one_div_one_div]

theorem csv_p_b_corr_nan_of_acc_nonfinite {a b : RowView} (hacc : b.acc = a.acc)
    (hnf : a.acc.isFinite = false) (tobs : Option ℚ) : csv_p_b_corr a b tobs = F.nan := by
  simp only [csv_p_b_corr, hacc]
  cases hA : a.acc with
  | fin c => rw [hA] at hnf; simp [F.isFinite] at hnf
  | pinf =>
    rw [show F.sub F.pinf F.pinf = F.nan from rfl, F.mul_nan_left, F.mul_nan_left,
      F.sub_nan_right, F.div_nan_right]
  | ninf =>
    rw [show F.sub F.ninf F.ninf = F.nan from rfl, F.mul_nan_left, F.mul_nan_left,
      F.sub_nan_right, F.div_nan_right]
  | nan =>
    rw [show F.sub F.nan F.nan = F.nan from rfl, F.mul_nan_left, F.mul_nan_left,
      F.sub_nan_right, F.div_nan_right]

theorem corrected_eq_of_same_acc {self other : Candidate} {f α : ℚ} (hf : other.f0 = F.fin f)
    (hf0 : f ≠ 0) (hacc : other.acc = self.acc) (hfin : self.acc = F.fin α) (τ : ℚ) :
    corrected_other_period self other τ = F.fin (1 / f) := by
  simp only [corrected_other_period, hf, hacc, hfin]
  rw [F.sub_fin, sub_self, F.mul_fin, F.mul_fin, zero_mul, zero_mul,
    F.sub_fin, sub_zero, F.div_fin 1 hf0]

theorem corrected_nan_of_acc_nonfinite {self other : Candidate} (hacc : other.acc = self.acc)
    (hnf : self.acc.isFinite = false) (τ : ℚ) :
    corrected_other_period self other τ = F.nan := by
  simp only [corrected_other_period, hacc]
  cases hA : self.acc with
  | fin c => rw [hA] at hnf; simp [F.isFinite] at hnf
  | pinf =>
    rw [show F.sub F.pinf F.pinf = F.nan from rfl, F.mul_nan_left, F.mul_nan_left,
      F.sub_nan_right, F.div_nan_right]
  | ninf =>
    rw [show F.sub F.ninf F.ninf = F.nan from rfl, F.mul_nan_left, F.mul_nan_left,
      F.sub_nan_right, F.div_nan_right]
  | nan =>
    rw [show F.sub F.nan F.nan = F.nan from rfl, F.mul_nan_left, F.mul_nan_left,
      F.sub_nan_right, F.div_nan_right]

/-! ## No-match lemmas when the corrected period is not finite -/

theorem periods_match_of_corr_nonfinite {a b : RowView} {ptol : ℚ} {dmtol acctol : Option ℚ}
    {hb : Bool} {tobs : Option ℚ}
    (hnf : (csv_p_b_corr a b tobs).isFinite = false) :
    periods_match a b ptol dmtol acctol hb tobs = false := by
  unfold periods_match
  split
  · rfl
  · split
    · rfl
    · cases hb with
      | false =>
        simp only [Bool.not_false, if_true]
        exact F.abs_le_fin_of_nonfinite ptol (F.sub_nonfinite a.period_s hnf)
      | true =>
        simp only [Bool.not_true, Bool.false_eq_true, if_false]
        refine List.any_eq_false.mpr fun k _ => ?_
        have h1 := F.abs_le_fin_of_nonfinite ptol
          (F.sub_nonfinite a.period_s (F.mul_fin_nonfinite ((k + 1 : ℕ) : ℚ) hnf))
        have h2 := F.abs_le_fin_of_nonfinite ptol
          (F.sub_nonfinite (F.mul (F.fin ((k + 1 : ℕ) : ℚ)) a.period_s) hnf)
        rw [h1, h2]
        decide

theorem is_related_of_corr_nonfinite {self other : Candidate} {pt : ℚ} {dmth : Option ℚ}
    {τ : ℚ} (hnf : (corrected_other_period self other τ).isFinite = false) :
    is_related self other pt dmth τ = false := by
  unfold is_related
  split
  · rfl
  · rw [F.gt_div_one_of_nonfinite _ hnf]
    simp only [Bool.false_eq_true, if_false]
    rw [F.rem_nonfinite_left _ hnf]
    have h2 := F.abs_le_fin_of_nonfinite pt (F.sub_nonfinite self.period hnf)
    rw [show F.le F.nan (F.fin pt) = false from rfl, h2]
    decide

/-! ## Concrete instances used by witnesses and counterexamples -/

/-- Construction of an XML candidate with the given period, zero DM and
acceleration, zero SNR. -/
def cexC (p : ℚ) : Candidate := Candidate.new (F.fin 0) (F.fin p) (F.fin 0) (F.fin 0)

/-- Five candidates with periods 10, 10.06, 10.12, 10.12, 10 seconds: with
period_thresh 0.1 the relation links 0-1, 0-4, 1-2, 1-3, 1-4, 2-3 and
nothing else. -/
def cexCands : List Candidate :=
  [cexC 10, cexC (mkRat 503 50), cexC (mkRat 253 25), cexC (mkRat 253 25), cexC 10]

/-- A CSV row with unit period, SNR 7 (pivot of the witness cluster). -/
def wrowP : RowView := ⟨F.fin 1, F.fin 0, F.fin 0, F.fin 7⟩

/-- A CSV row with unit period, SNR 2 (suppressed in the witness cluster). -/
def wrowQ : RowView := ⟨F.fin 1, F.fin 0, F.fin 0, F.fin 2⟩

theorem cluster_eval_w1 :
    cluster_rows [wrowQ, wrowP] (mkRat 1 1000) none none false none =
      ([wrowP], [(wrowQ, wrowP)]) := by
  unfold cluster_rows
  rw [show List.insertionSort row_le [wrowQ, wrowP] = [wrowP, wrowQ] from by decide]
  rw [cluster_pass_cons]
  rw [show ([wrowQ].filter fun q =>
      periods_match wrowP q (mkRat 1 1000) none none false none) = [wrowQ] from by decide]
  rw [show ([wrowQ].filter fun q =>
      !periods_match wrowP q (mkRat 1 1000) none none false none) = ([] : List RowView)
    from by decide]
  rw [cluster_pass_nil]
  rfl

/-- A CSV row with unit period, SNR 10 (pivot of the second witness cluster). -/
def w2B : RowView := ⟨F.fin 1, F.fin 0, F.fin 0, F.fin 10⟩

/-- A CSV row with unit period, SNR 5 (suppressed in the second witness cluster). -/
def w2A : RowView := ⟨F.fin 1, F.fin 0, F.fin 0, F.fin 5⟩

theorem cluster_eval_w2 :
    cluster_rows [w2A, w2B] (mkRat 1 1000) none none false none =
      ([w2B], [(w2A, w2B)]) := by
  unfold cluster_rows
  rw [show List.insertionSort row_le [w2A, w2B] = [w2B, w2A] from by decide]
  rw [cluster_pass_cons]
  rw [show ([w2A].filter fun q =>
      periods_match w2B q (mkRat 1 1000) none none false none) = [w2A] from by decide]
  rw [show ([w2A].filter fun q =>
      !periods_match w2B q (mkRat 1 1000) none none false none) = ([] : List RowView)
    from by decide]
  rw [cluster_pass_nil]
  rfl

/-! ## Claim C1 -/

/-- Claim C1, amended to its CSV half: in `cluster_rows` every input row is
either pushed to the picked set or suppressed with exactly one claiming
pivot — the picked rows together with the suppressed rows are a permutation
of the input (no row is both picked and suppressed, none is lost, and each
suppressed row is recorded with exactly one claimant), and every recorded
claimant is itself a picked pivot whose match predicate accepted the row it
claimed.  The XML-pipeline half of the original claim is false; see the
counterexample. -/
theorem C1_cluster_rows_partition (rows : List RowView) (ptol : ℚ)
    (dmtol acctol : Option ℚ) (hb : Bool) (tobs : Option ℚ) :
    List.Perm ((cluster_rows rows ptol dmtol acctol hb tobs).1 ++
        ((cluster_rows rows ptol dmtol acctol hb tobs).2.map Prod.fst)) rows ∧
      ∀ q p, (q, p) ∈ (cluster_rows rows ptol dmtol acctol hb tobs).2 →
        p ∈ (cluster_rows rows ptol dmtol acctol hb tobs).1 ∧
          periods_match p q ptol dmtol acctol hb tobs = true := by
  unfold cluster_rows
  refine ⟨?_, ?_⟩
  · exact (cluster_pass_perm ptol dmtol acctol hb tobs _).trans
      (List.perm_insertionSort row_le rows)
  · intro q p hmem
    exact cluster_pass_claims ptol dmtol acctol hb tobs _ q p hmem

/-- Claim C1, counterexample to the XML-pipeline half: running
`cluster_candidates` then `shortlist_candidates` on `cexCands` with
period_thresh 0.1 and no DM gate, candidate 2 is not marked as a pivot and
does not appear in the related list of any pivot — it is unclaimed. -/
theorem C1_xml_counterexample :
    2 ∉ shortlist_candidates (related_lists cexCands (mkRat 1 10) none 1) ∧
      ∀ i ∈ shortlist_candidates (related_lists cexCands (mkRat 1 10) none 1),
        2 ∉ (related_lists cexCands (mkRat 1 10) none 1).getD i [] := by decide

/-- Claim C1, witness: the amended theorem applied to a concrete two-row
input where the SNR-10 row claims the SNR-2 row. -/
theorem C1_cluster_rows_partition_witness :
    List.Perm ((cluster_rows [wrowQ, wrowP] (mkRat 1 1000) none none false none).1 ++
        ((cluster_rows [wrowQ, wrowP] (mkRat 1 1000) none none false none).2.map Prod.fst))
      [wrowQ, wrowP] ∧
      wrowP ∈ (cluster_rows [wrowQ, wrowP] (mkRat 1 1000) none none false none).1 ∧
        periods_match wrowP wrowQ (mkRat 1 1000) none none false none = true :=
  ⟨(C1_cluster_rows_partition [wrowQ, wrowP] (mkRat 1 1000) none none false none).1,
    (C1_cluster_rows_partition [wrowQ, wrowP] (mkRat 1 1000) none none false none).2
      wrowQ wrowP (by rw [cluster_eval_w1]; exact List.mem_singleton.mpr rfl)⟩

/-! ## Claim C2 -/

/-- Claim C2: for every suppressed row `q` with claiming pivot `p` produced
by `cluster_rows`, the pivot precedes the row in the comparator order
(non-finite SNR last, finite SNR descending — the tie-break rule), and in
particular if the suppressed row's SNR is finite then the pivot's SNR is
finite and at least as large, so no suppressed row with finite SNR has
strictly greater SNR than the pivot that claimed it. -/
theorem C2_snr_maximality (rows : List RowView) (ptol : ℚ) (dmtol acctol : Option ℚ)
    (hb : Bool) (tobs : Option ℚ) (q p : RowView)
    (hmem : (q, p) ∈ (cluster_rows rows ptol dmtol acctol hb tobs).2) :
    sorts_before p q = true ∧
      (q.snr.isFinite = true → p.snr.isFinite = true ∧ F.le q.snr p.snr = true) := by
  unfold cluster_rows at hmem
  have hsorted : List.Pairwise row_le (List.insertionSort row_le rows) :=
    List.sorted_insertionSort row_le rows
  have hle := cluster_pass_order ptol dmtol acctol hb tobs _ hsorted q p hmem
  exact ⟨hle, fun hq => row_le_snr hle hq⟩

/-- Claim C2, witness: the theorem applied to a concrete two-row input where
the SNR-10 pivot suppresses the SNR-5 row. -/
theorem C2_snr_maximality_witness :
    sorts_before w2B w2A = true ∧
      (w2A.snr.isFinite = true → w2B.snr.isFinite = true ∧ F.le w2A.snr w2B.snr = true) :=
  C2_snr_maximality [w2A, w2B] (mkRat 1 1000) none none false none w2A w2B
    (by rw [cluster_eval_w2]; exact List.mem_singleton.mpr rfl)

/-! ## Self-match lemmas -/

theorem F.gt_abs_sub_self (x : F) {d : ℚ} (hd : 0 ≤ d) :
    F.gt (F.abs (F.sub x x)) (F.fin d) = false := by
  cases x with
  | fin v =>
    rw [F.sub_fin, sub_self, F.abs_fin, abs_zero]
    show decide (d < 0) = false
    exact decide_eq_false (not_lt.mpr hd)
  | pinf => rfl
  | ninf => rfl
  | nan => rfl

theorem dm_gate_self (c : RowView) {dmtol : Option ℚ} (h : ∀ d ∈ dmtol, 0 ≤ d) :
    dm_gate_rejects c c dmtol = false := by
  cases dmtol with
  | none => rfl
  | some d => exact F.gt_abs_sub_self c.dm (h d rfl)

theorem acc_gate_self (c : RowView) {acctol : Option ℚ} (h : ∀ t ∈ acctol, 0 ≤ t) :
    acc_gate_rejects c c acctol = false := by
  cases acctol with
  | none => rfl
  | some t => exact F.gt_abs_sub_self c.acc (h t rfl)

theorem is_related_dm_self (c : Candidate) {dmth : Option ℚ} (h : ∀ d ∈ dmth, 0 ≤ d) :
    is_related_dm_rejects c c dmth = false := by
  cases dmth with
  | none => rfl
  | some d => exact F.gt_abs_sub_self c.dm (h d rfl)

/-! ## Claim C3 -/

/-- Claim C3, amended: the self-pair matches provided the candidate's
acceleration is finite (in addition to a positive finite period) and the
configured gate values are nonnegative — for `periods_match` under any
harmonics setting, any DM value, and any supplied or defaulted observation
duration, and for `is_related` under any `tobs_over_c`.  With NaN
acceleration the acceleration correction of the self-pair is NaN and both
predicates answer no-match, and a negative gate value rejects the self-pair;
see the counterexample. -/
theorem C3_self_match (c : RowView) (p α : ℚ) (hp : c.period_s = F.fin p) (hp0 : 0 < p)
    (hacc : c.acc = F.fin α) (ptol : ℚ) (hptol : 0 ≤ ptol) (dmtol acctol : Option ℚ)
    (hdm : ∀ d ∈ dmtol, 0 ≤ d) (hacctol : ∀ t ∈ acctol, 0 ≤ t)
    (hb : Bool) (tobs : Option ℚ) (snr2 dm2 : F) (p2 α2 : ℚ) (hp2 : 0 < p2)
    (thresh : ℚ) (hthresh : 0 ≤ thresh) (dmth : Option ℚ) (hdmth : ∀ d ∈ dmth, 0 ≤ d)
    (τ : ℚ) :
    periods_match c c ptol dmtol acctol hb tobs = true ∧
      is_related (Candidate.new snr2 (F.fin p2) dm2 (F.fin α2))
        (Candidate.new snr2 (F.fin p2) dm2 (F.fin α2)) thresh dmth τ = true := by
  constructor
  · have hcorr := csv_p_b_corr_eq_period hp (ne_of_gt hp0) rfl hacc tobs
    unfold periods_match
    rw [dm_gate_self c hdm, acc_gate_self c hacctol]
    simp only [Bool.false_eq_true, if_false]
    cases hb with
    | false =>
      simp only [Bool.not_false, if_true]
      rw [hp, hcorr, F.sub_fin, sub_self, F.abs_fin, abs_zero]
      exact decide_eq_true hptol
    | true =>
      simp only [Bool.not_true, Bool.false_eq_true, if_false]
      refine List.any_eq_true.mpr ⟨0, List.mem_range.mpr (by norm_num [HMAX]), ?_⟩
      have h1 : F.le (F.abs (F.sub c.period_s
          (F.mul (F.fin ((0 + 1 : ℕ) : ℚ)) (csv_p_b_corr c c tobs)))) (F.fin ptol) = true := by
        rw [hp, hcorr, show ((0 + 1 : ℕ) : ℚ) = 1 from by norm_num, F.mul_fin, one_mul,
          F.sub_fin, sub_self, F.abs_fin, abs_zero]
        exact decide_eq_true hptol
      show (F.le (F.abs (F.sub c.period_s
          (F.mul (F.fin ((0 + 1 : ℕ) : ℚ)) (csv_p_b_corr c c tobs)))) (F.fin ptol) ||
        F.le (F.abs (F.sub (F.mul (F.fin ((0 + 1 : ℕ) : ℚ)) c.period_s)
          (csv_p_b_corr c c tobs))) (F.fin ptol)) = true
      rw [h1]
      rfl
  · have hf0 : (Candidate.new snr2 (F.fin p2) dm2 (F.fin α2)).f0 = F.fin (1 / p2) :=
      F.div_fin 1 (ne_of_gt hp2)
    have hcorr := corrected_eq_of_same_acc hf0 (one_div_ne_zero (ne_of_gt hp2)) rfl rfl τ
    rw [one_div_one_div] at hcorr
    unfold is_related
    rw [is_related_dm_self _ hdmth]
    simp only [Bool.false_eq_true, if_false]
    rw [hcorr, show (Candidate.new snr2 (F.fin p2) dm2 (F.fin α2)).period = F.fin p2 from rfl,
      F.sub_fin, sub_self, F.abs_fin, abs_zero,
      show F.le (F.fin 0) (F.fin thresh) = true from decide_eq_true hthresh, Bool.or_true]

/-- Claim C3, counterexample: a candidate with positive finite period but NaN
acceleration does not match itself (with `period_tol_abs = 0 ≥ 0`, no gates),
in either engine; and with a finite acceleration a negative DM gate value
also rejects the self-pair. -/
theorem C3_counterexample :
    periods_match ⟨F.fin 1, F.fin 0, F.nan, F.fin 0⟩ ⟨F.fin 1, F.fin 0, F.nan, F.fin 0⟩
        0 none none false none = false ∧
      is_related (Candidate.new (F.fin 0) (F.fin 1) (F.fin 0) F.nan)
        (Candidate.new (F.fin 0) (F.fin 1) (F.fin 0) F.nan) 0 none 1 = false ∧
      periods_match ⟨F.fin 1, F.fin 0, F.fin 0, F.fin 0⟩ ⟨F.fin 1, F.fin 0, F.fin 0, F.fin 0⟩
        0 (some (-1)) none false none = false := by
  decide

/-- Claim C3, witness: the amended theorem applied at period 1, acceleration
0, all tolerances 0 or absent, harmonics on. -/
theorem C3_self_match_witness :
    periods_match ⟨F.fin 1, F.fin 0, F.fin 0, F.fin 0⟩ ⟨F.fin 1, F.fin 0, F.fin 0, F.fin 0⟩
        0 none none true none = true ∧
      is_related (Candidate.new (F.fin 0) (F.fin 1) (F.fin 0) (F.fin 0))
        (Candidate.new (F.fin 0) (F.fin 1) (F.fin 0) (F.fin 0)) 0 none 1 = true :=
  C3_self_match ⟨F.fin 1, F.fin 0, F.fin 0, F.fin 0⟩ 1 0 rfl one_pos rfl 0 le_rfl
    none none (by simp) (by simp) true none (F.fin 0) (F.fin 0) 1 0 one_pos 0 le_rfl
    none (by simp) 1

/-! ## Claim C4 -/

/-- Claim C4: the modulo-based harmonic test of `is_related` and the
explicit bounded harmonic search of `periods_match` disagree in both
directions on candidate pairs with equal accelerations and the same
tolerance (0.001 s): periods (20 s, 1 s) are related by the modulo test
(20 mod 1 = 0) but rejected by the explicit search (which stops at k = 16),
while periods (5.9999 s, 2 s) are matched by the explicit search (k = 3)
but rejected by the modulo test (5.9999 mod 2 = 1.9999). -/
theorem C4_modulo_vs_explicit :
    (is_related (cexC 20) (cexC 1) (mkRat 1 1000) none 1 = true ∧
      periods_match ⟨F.fin 20, F.fin 0, F.fin 0, F.fin 0⟩ ⟨F.fin 1, F.fin 0, F.fin 0, F.fin 0⟩
        (mkRat 1 1000) none none true none = false) ∧
    (periods_match ⟨F.fin (mkRat 59999 10000), F.fin 0, F.fin 0, F.fin 0⟩
        ⟨F.fin 2, F.fin 0, F.fin 0, F.fin 0⟩ (mkRat 1 1000) none none true none = true ∧
      is_related (cexC (mkRat 59999 10000)) (cexC 2) (mkRat 1 1000) none 1 = false) := by
  decide

/-! ## Claim C5 -/

theorem periods_match_abs_swap (p1 p2 : F) (ptol : ℚ) (hm : Bool) (hmax : ℕ) :
    periods_match_abs p1 p2 ptol hm hmax = periods_match_abs p2 p1 ptol hm hmax := by
  unfold periods_match_abs
  rw [F.abs_sub_swap p1 p2]
  refine if_congr Iff.rfl rfl (if_congr Iff.rfl ?_ rfl)
  apply congrArg
  funext k
  show (F.le (F.abs (F.sub p1 (F.mul (F.fin ((k + 2 : ℕ) : ℚ)) p2))) (F.fin ptol) ||
      F.le (F.abs (F.sub p2 (F.mul (F.fin ((k + 2 : ℕ) : ℚ)) p1))) (F.fin ptol)) =
    (F.le (F.abs (F.sub p2 (F.mul (F.fin ((k + 2 : ℕ) : ℚ)) p1))) (F.fin ptol) ||
      F.le (F.abs (F.sub p1 (F.mul (F.fin ((k + 2 : ℕ) : ℚ)) p2))) (F.fin ptol))
  exact Bool.or_comm _ _

/-- Claim C5, amended: with harmonics the predicates are symmetric over the
unordered pair as follows — `periods_match_abs` (no acceleration correction)
is symmetric unconditionally, and `periods_match` is symmetric whenever the
two candidates carry the same acceleration (so the correction is the
identity); with different accelerations the one-sided correction breaks
symmetry, see the counterexample. -/
theorem C5_harmonic_symmetry (a b : RowView) (pa pb : ℚ)
    (hpa : a.period_s = F.fin pa) (hpa0 : 0 < pa)
    (hpb : b.period_s = F.fin pb) (hpb0 : 0 < pb) (hacc : a.acc = b.acc)
    (ptol : ℚ) (dmtol acctol : Option ℚ) (hb : Bool) (tobs : Option ℚ)
    (p1 p2 : F) (ptol2 : ℚ) (hm2 : Bool) (hmax2 : ℕ) :
    periods_match a b ptol dmtol acctol hb tobs =
        periods_match b a ptol dmtol acctol hb tobs ∧
      periods_match_abs p1 p2 ptol2 hm2 hmax2 = periods_match_abs p2 p1 ptol2 hm2 hmax2 := by
  refine ⟨?_, periods_match_abs_swap p1 p2 ptol2 hm2 hmax2⟩
  by_cases hfin : a.acc.isFinite = true
  · obtain ⟨α, hA⟩ : ∃ α, a.acc = F.fin α := by
      cases hx : a.acc
      · exact ⟨_, rfl⟩
      all_goals rw [hx] at hfin; simp [F.isFinite] at hfin
    have hBα : b.acc = F.fin α := hacc.symm.trans hA
    have hc1 : csv_p_b_corr a b tobs = F.fin pb :=
      csv_p_b_corr_eq_period hpb (ne_of_gt hpb0) hacc.symm hA tobs
    have hc2 : csv_p_b_corr b a tobs = F.fin pa :=
      csv_p_b_corr_eq_period hpa (ne_of_gt hpa0) hacc hBα tobs
    unfold periods_match
    rw [dm_gate_swap a b dmtol, acc_gate_swap a b acctol, hc1, hc2, hpa, hpb]
    refine if_congr Iff.rfl rfl (if_congr Iff.rfl rfl ?_)
    cases hb with
    | false =>
      simp only [Bool.not_false, if_true]
      rw [F.abs_sub_swap]
    | true =>
      simp only [Bool.not_true, Bool.false_eq_true, if_false]
      apply congrArg
      funext k
      rw [F.abs_sub_swap (F.fin pa) (F.mul (F.fin ((k + 1 : ℕ) : ℚ)) (F.fin pb)),
        F.abs_sub_swap (F.mul (F.fin ((k + 1 : ℕ) : ℚ)) (F.fin pa)) (F.fin pb)]
      exact Bool.or_comm _ _
  · have hnfa : a.acc.isFinite = false := by
      revert hfin; cases a.acc.isFinite <;> simp
    have hnfb : b.acc.isFinite = false := by rw [← hacc]; exact hnfa
    have h1 : (csv_p_b_corr a b tobs).isFinite = false := by
      rw [csv_p_b_corr_nan_of_acc_nonfinite hacc.symm hnfa tobs]; rfl
    have h2 : (csv_p_b_corr b a tobs).isFinite = false := by
      rw [csv_p_b_corr_nan_of_acc_nonfinite hacc hnfb tobs]; rfl
    rw [periods_match_of_corr_nonfinite h1, periods_match_of_corr_nonfinite h2]

/-- Claim C5, counterexample: with different accelerations the corrected
predicate is not symmetric — candidate periods (4 s, 1 s) with acceleration
difference 299792458/1200 m/s² (so the correction halves the second
frequency over the default 600 s baseline) match via the k = 2 harmonic in
one order and fail every check in the other order, at tolerance 0.001 s. -/
theorem C5_counterexample :
    periods_match ⟨F.fin 4, F.fin 0, F.fin 0, F.fin 0⟩
        ⟨F.fin 1, F.fin 0, F.fin (mkRat 299792458 1200), F.fin 0⟩
        (mkRat 1 1000) none none true none = true ∧
      periods_match ⟨F.fin 1, F.fin 0, F.fin (mkRat 299792458 1200), F.fin 0⟩
        ⟨F.fin 4, F.fin 0, F.fin 0, F.fin 0⟩
        (mkRat 1 1000) none none true none = false := by
  decide

/-- Claim C5, witness: the amended theorem applied to two rows with periods
1 s and 2 s and the same acceleration 3, harmonics on. -/
theorem C5_harmonic_symmetry_witness :
    periods_match ⟨F.fin 1, F.fin 0, F.fin 3, F.fin 0⟩ ⟨F.fin 2, F.fin 0, F.fin 3, F.fin 0⟩
        (mkRat 1 100) none none true none =
      periods_match ⟨F.fin 2, F.fin 0, F.fin 3, F.fin 0⟩ ⟨F.fin 1, F.fin 0, F.fin 3, F.fin 0⟩
        (mkRat 1 100) none none true none ∧
    periods_match_abs (F.fin 1) (F.fin 2) 1 true 8 =
      periods_match_abs (F.fin 2) (F.fin 1) 1 true 8 :=
  C5_harmonic_symmetry ⟨F.fin 1, F.fin 0, F.fin 3, F.fin 0⟩ ⟨F.fin 2, F.fin 0, F.fin 3, F.fin 0⟩
    1 2 rfl one_pos rfl two_pos rfl (mkRat 1 100) none none true none
    (F.fin 1) (F.fin 2) 1 true 8

/-! ## Claim C6 -/

/-- Claim C6: both engines compute the corrected period of `b` relative to
`a` by the spec formula `1 / ((1/p_b) - (acc_b - acc_a) · (1/p_b) ·
(observation_duration / speed_of_light))` with `speed_of_light = 299792458`;
the CSV engine substitutes 600 s whenever the caller supplies no
observation duration, and the XML pipeline substitutes
`fft_size · tsamp` of the first file. -/
theorem C6_correction_formula (a b : RowView) (t : ℚ) (self : Candidate)
    (snr2 period2 dm2 acc2 : F) (n : ℤ) (ts : ℚ) :
    SPEED_OF_LIGHT = 299792458 ∧
      csv_p_b_corr a b none = spec_corrected_period b.period_s b.acc a.acc 600 ∧
      csv_p_b_corr a b (some t) = spec_corrected_period b.period_s b.acc a.acc t ∧
      corrected_other_period self (Candidate.new snr2 period2 dm2 acc2)
          (effective_tobs_over_c n ts) =
        spec_corrected_period period2 acc2 self.acc ((n : ℚ) * ts) := by
  refine ⟨rfl, rfl, rfl, ?_⟩
  conv_rhs => rw [show ((n : ℚ) * ts) = qmul ((n : ℚ)) ts from (qmul_eq _ _).symm]
  rfl

/-! ## Claim C7 -/

/-- Claim C7: whenever the acceleration-corrected period evaluates to a
non-finite value (infinity or NaN), both predicates answer a definite
no-match — every direct, harmonic and modulo comparison against the finite
tolerance is false instead of propagating NaN into a match. -/
theorem C7_nonfinite_correction_no_match (a b : RowView) (ptol : ℚ)
    (dmtol acctol : Option ℚ) (hm : Bool) (tobs : Option ℚ)
    (self other : Candidate) (pt : ℚ) (dmth : Option ℚ) (τ : ℚ)
    (h1 : (csv_p_b_corr a b tobs).isFinite = false)
    (h2 : (corrected_other_period self other τ).isFinite = false) :
    periods_match a b ptol dmtol acctol hm tobs = false ∧
      is_related self other pt dmth τ = false :=
  ⟨periods_match_of_corr_nonfinite h1, is_related_of_corr_nonfinite h2⟩

/-- A CSV row whose acceleration offset makes the corrected frequency of the
witness pair exactly zero over the default 600 s baseline. -/
def w7b : RowView := ⟨F.fin 1, F.fin 0, F.fin (mkRat 299792458 600), F.fin 0⟩

/-- The zero-acceleration counterpart row of the C7 witness pair. -/
def w7a : RowView := ⟨F.fin 1, F.fin 0, F.fin 0, F.fin 0⟩

/-- An XML candidate with unit acceleration for the C7 witness pair. -/
def w7other : Candidate := Candidate.new (F.fin 0) (F.fin 1) (F.fin 0) (F.fin 1)

/-- An XML candidate with zero acceleration for the C7 witness pair. -/
def w7self : Candidate := Candidate.new (F.fin 0) (F.fin 1) (F.fin 0) (F.fin 0)

/-- Claim C7, witness: a concrete pair whose corrected frequency is exactly
zero, so the corrected period is infinite, and neither engine matches. -/
theorem C7_nonfinite_correction_witness :
    periods_match w7a w7b 1 none none true none = false ∧
      is_related w7self w7other 1 none 1 = false :=
  C7_nonfinite_correction_no_match w7a w7b 1 none none true none w7self w7other 1 none 1
    (by decide) (by decide)

/-! ## Claim C8 -/

/-- Claim C8: for positive periods within the declared absolute tolerance
(`ptol > 0`), the two bucket ids differ by at most one, so the neighbor
bucket set built by `neighbors_for` from the first period's bucket always
contains the second period's bucket — the bucketed index never
under-includes a direct match. -/
theorem C8_bucket_cover (p1 p2 ptol : ℚ) (hmax : ℕ) (harmonics : Bool)
    (hp1 : 0 < p1) (hp2 : 0 < p2) (hptol : 0 < ptol) (hclose : |p1 - p2| ≤ ptol) :
    bucket_abs p2 ptol ∈ neighbors_for (bucket_abs p1 ptol) hmax harmonics ptol := by
  obtain ⟨hd1, hd2⟩ := abs_le.mp hclose
  have key : bucket_abs p1 ptol - 1 ≤ bucket_abs p2 ptol ∧
      bucket_abs p2 ptol ≤ bucket_abs p1 ptol + 1 := by
    unfold bucket_abs
    rw [qfloor_eq, qfloor_eq, qdiv_eq, qdiv_eq]
    have hq1 : p2 / ptol ≤ p1 / ptol + 1 := by
      have hle : p2 ≤ p1 + ptol := by linarith
      have := (div_le_div_iff_of_pos_right hptol).mpr hle
      rwa [add_div, div_self (ne_of_gt hptol)] at this
    have hq2 : p1 / ptol ≤ p2 / ptol + 1 := by
      have hle : p1 ≤ p2 + ptol := by linarith
      have := (div_le_div_iff_of_pos_right hptol).mpr hle
      rwa [add_div, div_self (ne_of_gt hptol)] at this
    constructor
    · have h := Int.floor_le_floor hq2
      rw [Int.floor_add_one] at h
      omega
    · have h := Int.floor_le_floor hq1
      rw [Int.floor_add_one] at h
      omega
    -- both bounds follow from floor monotonicity and floor(x + 1) = floor(x) + 1
  have hmem : bucket_abs p2 ptol ∈
      [bucket_abs p1 ptol - 1, bucket_abs p1 ptol, bucket_abs p1 ptol + 1] := by
    have h3 : bucket_abs p2 ptol = bucket_abs p1 ptol - 1 ∨
        bucket_abs p2 ptol = bucket_abs p1 ptol ∨
        bucket_abs p2 ptol = bucket_abs p1 ptol + 1 := by omega
    rcases h3 with h | h | h <;> simp [h]
  unfold neighbors_for
  cases harmonics with
  | false => exact hmem
  | true => exact List.mem_append_left _ hmem

/-- Claim C8, witness: periods 1 s and 3/2 s at tolerance 1 s land in
buckets 1 and 1, and the neighbor set of bucket 1 contains bucket 1. -/
theorem C8_bucket_cover_witness :
    bucket_abs (3 / 2 : ℚ) 1 ∈ neighbors_for (bucket_abs 1 1) 8 false 1 :=
  C8_bucket_cover 1 (3 / 2 : ℚ) 1 8 false one_pos (by norm_num) one_pos (by norm_num [abs_le])

/-! ## Claim C9 -/

/-- Claim C9: in the cross-file matcher, a configured tolerance with a
missing value on either side fails closed — `dim_match_abs` is false, hence
the whole pair test is false regardless of period proximity or harmonics,
both when the missing dimension is DM and when it is acceleration; with no
tolerance configured the dimension is never checked and the gate passes. -/
theorem C9_fail_closed (x y : Option F) (t t2 : ℚ) (p1 p2 : F)
    (dmA dmB accA accB : Option F) (ptol : ℚ) (dmtol acctol : Option ℚ)
    (hm : Bool) (hmax : ℕ) (hmiss : x = none ∨ y = none) :
    dim_match_abs x y (some t) = false ∧
      dim_match_abs x y none = true ∧
      pair_matches p1 p2 x y accA accB ptol (some t) acctol hm hmax = false ∧
      pair_matches p1 p2 dmA dmB x y ptol dmtol (some t2) hm hmax = false := by
  have hdim : ∀ tt : ℚ, dim_match_abs x y (some tt) = false := by
    intro tt
    rcases hmiss with rfl | rfl
    · rfl
    · cases x <;> rfl
  refine ⟨hdim t, rfl, ?_, ?_⟩
  · unfold pair_matches
    rw [hdim t]
    simp
  · unfold pair_matches
    rw [hdim t2]
    simp

/-- Claim C9, witness: the theorem applied with the first DM value missing
and the second present. -/
theorem C9_fail_closed_witness :
    dim_match_abs none (some (F.fin 5)) (some 1) = false ∧
      dim_match_abs none (some (F.fin 5)) none = true ∧
      pair_matches (F.fin 1) (F.fin 1) none (some (F.fin 5)) none none 1 (some 1) none
        false 8 = false ∧
      pair_matches (F.fin 1) (F.fin 1) none none none (some (F.fin 5)) 1 none (some 1)
        false 8 = false :=
  C9_fail_closed none (some (F.fin 5)) 1 1 (F.fin 1) (F.fin 1) none none none
    (some (F.fin 5)) 1 none none false 8 (Or.inl rfl)

/-! ## Claim C10 -/

/-- Claim C10: in the engines that store DM as a plain float, a NaN DM value
always passes a configured DM gate — the rejection test `|ΔDM| > d` is a
NaN comparison and evaluates to false — so the predicate computes exactly
the same answer as with the gate disabled, in both `periods_match` and
`is_related`. -/
theorem C10_nan_dm_passes_gate (a b : RowView) (d : ℚ) (ptol : ℚ) (acctol : Option ℚ)
    (hm : Bool) (tobs : Option ℚ) (self other : Candidate) (d2 pt τ : ℚ)
    (h1 : a.dm = F.nan ∨ b.dm = F.nan) (h2 : self.dm = F.nan ∨ other.dm = F.nan) :
    periods_match a b ptol (some d) acctol hm tobs =
        periods_match a b ptol none acctol hm tobs ∧
      is_related self other pt (some d2) τ = is_related self other pt none τ := by
  constructor
  · unfold periods_match
    rw [dm_gate_nan h1 (some d), dm_gate_nan h1 none]
  · unfold is_related
    rw [is_related_dm_nan h2 (some d2), is_related_dm_nan h2 none]

/-- Claim C10, witness: the theorem applied to a concrete pair whose first
member carries NaN DM, with a gate of 1. -/
theorem C10_nan_dm_witness :
    periods_match ⟨F.fin 1, F.nan, F.fin 0, F.fin 0⟩ ⟨F.fin 1, F.fin 0, F.fin 0, F.fin 0⟩
        1 (some 1) none false none =
      periods_match ⟨F.fin 1, F.nan, F.fin 0, F.fin 0⟩ ⟨F.fin 1, F.fin 0, F.fin 0, F.fin 0⟩
        1 none none false none ∧
      is_related (Candidate.new (F.fin 0) (F.fin 1) F.nan (F.fin 0))
          (Candidate.new (F.fin 0) (F.fin 1) (F.fin 0) (F.fin 0)) 1 (some 1) 1 =
        is_related (Candidate.new (F.fin 0) (F.fin 1) F.nan (F.fin 0))
          (Candidate.new (F.fin 0) (F.fin 1) (F.fin 0) (F.fin 0)) 1 none 1 :=
  C10_nan_dm_passes_gate ⟨F.fin 1, F.nan, F.fin 0, F.fin 0⟩
    ⟨F.fin 1, F.fin 0, F.fin 0, F.fin 0⟩ 1 1 none false none
    (Candidate.new (F.fin 0) (F.fin 1) F.nan (F.fin 0))
    (Candidate.new (F.fin 0) (F.fin 1) (F.fin 0) (F.fin 0)) 1 1 1
    (Or.inl rfl) (Or.inl rfl)
